import Mathlib

/-!
Shallow embedding of the roast-somnia contracts:
`ContentRewardDistribution.sol` (referral-aware payout splitting engine) and
the `ContentRegistry` contract (content lifecycle state machine).

Addresses are modelled as `Nat` with `0` playing the role of `address(0)`.
Machine integers are `Nat`; every Solidity 0.8 checked operation that can
abort (multiplication overflow past `2 ^ 256 - 1`, subtraction underflow) is
modelled explicitly: a function returns `none` exactly when the Solidity
call would revert, and a revert leaves the pre-state in force.  Counter
increments and accumulator additions are kept as unbounded `Nat`
(a revert there would only shrink the set of completed calls).

ERC-20 token transfers executed by the engine are modelled by an oracle
`Nat → Nat → Bool` giving, per (recipient, amount), whether
`roastToken.transfer` succeeds; successful transfers are journalled in a
`transferLog` field so that "transfers already completed are not undone"
is visible in the state.
-/

namespace Roast

/-- Cap of `uint256`: checked arithmetic aborts beyond this. -/
def UMAX : Nat := 2 ^ 256 - 1

/-- `TierLevel` enum of `ContentRewardDistribution.sol`. -/
inductive Tier where
  | SILVER | GOLD | PLATINUM | EMERALD | DIAMOND | UNICORN
deriving DecidableEq, Repr

/-- `ReferralData` struct. -/
structure ReferralData where
  directReferrer : Nat
  grandReferrer : Nat
  tier : Tier
  isActive : Bool
  totalEarnings : Nat
  totalReferrals : Nat
deriving DecidableEq, Repr

/-- Solidity mapping default for `ReferralData` (all fields zero / false). -/
def ReferralData.zero : ReferralData :=
  ⟨0, 0, Tier.SILVER, false, 0, 0⟩

/-- `PayoutRecord` struct. -/
structure PayoutRecord where
  contentId : Nat
  buyer : Nat
  miner : Nat
  totalAmount : Nat
  minerAmount : Nat
  evaluatorAmount : Nat
  platformAmount : Nat
  directReferrerAmount : Nat
  grandReferrerAmount : Nat
  residualPlatformAmount : Nat
  timestamp : Nat
  completed : Bool
deriving DecidableEq, Repr

/-- Solidity mapping default for `PayoutRecord`. -/
def PayoutRecord.zero : PayoutRecord :=
  ⟨0, 0, 0, 0, 0, 0, 0, 0, 0, 0, 0, false⟩

/-- Storage of `ContentRewardDistribution`, plus a journal `transferLog` of
the ERC-20 transfers the contract has successfully executed (in order). -/
structure DistState where
  evaluatorTreasury : Nat
  platformTreasury : Nat
  userReferrals : Nat → ReferralData
  totalReferralEarnings : Nat → Nat
  payouts : Nat → PayoutRecord
  totalPayouts : Nat
  directReferrerRates : Tier → Nat
  grandReferrerRates : Tier → Nat
  paused : Bool
  transferLog : List (Nat × Nat)

/-- `MINER_RATE` constant (basis points over 10000). -/
def MINER_RATE : Nat := 5000

/-- `EVALUATOR_RATE` constant. -/
def EVALUATOR_RATE : Nat := 2000

/-- `PLATFORM_RATE` constant. -/
def PLATFORM_RATE : Nat := 3000

/-- Direct referrer rates as set by the constructor. -/
def initialDirectRates : Tier → Nat
  | Tier.SILVER => 500
  | Tier.GOLD => 750
  | Tier.PLATINUM => 1000
  | Tier.EMERALD => 1000
  | Tier.DIAMOND => 1000
  | Tier.UNICORN => 1000

/-- Grand referrer rates as set by the constructor. -/
def initialGrandRates : Tier → Nat
  | Tier.SILVER => 250
  | Tier.GOLD => 375
  | Tier.PLATINUM => 500
  | Tier.EMERALD => 500
  | Tier.DIAMOND => 500
  | Tier.UNICORN => 500

/-- `_calculateReferralPayouts`.  Returns `(directAmount, grandAmount,
totalAmount)`; `none` models a checked-multiplication revert. -/
def calculateReferralPayouts (s : DistState) (buyer totalAmount : Nat) :
    Option (Nat × Nat × Nat) :=
  let rd := s.userReferrals buyer
  if rd.isActive = false then some (0, 0, 0)
  else
    if UMAX < totalAmount * s.directReferrerRates rd.tier then none
    else
      let directAmount := totalAmount * s.directReferrerRates rd.tier / 10000
      if rd.grandReferrer ≠ 0 ∧ (s.userReferrals rd.grandReferrer).isActive = true then
        if UMAX < totalAmount * s.grandReferrerRates rd.tier then none
        else
          let grandAmount := totalAmount * s.grandReferrerRates rd.tier / 10000
          some (directAmount, grandAmount, directAmount + grandAmount)
      else some (directAmount, 0, directAmount + 0)

/-- The transfer legs attempted by `_executeTransfers`, in source order:
miner (always, amount re-read from the payout record at `totalPayouts - 1`),
then evaluator / residual platform / direct referrer / grand referrer, each
only when its amount is positive. -/
def plannedTransfers (s : DistState) (miner evaluatorAmount residualPlatformAmount
    buyer directAmount grandAmount : Nat) : List (Nat × Nat) :=
  let payoutId := s.totalPayouts - 1
  let rd := s.userReferrals buyer
  [(miner, (s.payouts payoutId).minerAmount)]
    ++ (if 0 < evaluatorAmount then [(s.evaluatorTreasury, evaluatorAmount)] else [])
    ++ (if 0 < residualPlatformAmount then [(s.platformTreasury, residualPlatformAmount)] else [])
    ++ (if 0 < directAmount then [(rd.directReferrer, directAmount)] else [])
    ++ (if 0 < grandAmount then [(rd.grandReferrer, grandAmount)] else [])

/-- Run a list of transfer legs against the token oracle: stop at the first
failing leg (its `catch` returns `false` from `_executeTransfers`), returning
the success flag and the list of transfers that actually went through. -/
def runTransfers (oracle : Nat → Nat → Bool) : List (Nat × Nat) → Bool × List (Nat × Nat)
  | [] => (true, [])
  | t :: ts =>
    if oracle t.1 t.2 then
      let r := runTransfers oracle ts
      (r.1, t :: r.2)
    else (false, [])

/-- `_updateReferralStats`: faithful to the storage-pointer semantics
(the grand referrer is re-read after the direct-referrer update). -/
def updateReferralStats (s : DistState) (buyer directAmount grandAmount : Nat) :
    DistState :=
  let s1 :=
    if 0 < directAmount then
      let dref := (s.userReferrals buyer).directReferrer
      { s with
        totalReferralEarnings := fun a =>
          if a = dref then s.totalReferralEarnings a + directAmount
          else s.totalReferralEarnings a,
        userReferrals := fun a =>
          if a = dref then
            { s.userReferrals a with
              totalEarnings := (s.userReferrals a).totalEarnings + directAmount,
              totalReferrals := (s.userReferrals a).totalReferrals + 1 }
          else s.userReferrals a }
    else s
  if 0 < grandAmount then
    let gref := (s1.userReferrals buyer).grandReferrer
    { s1 with
      totalReferralEarnings := fun a =>
        if a = gref then s1.totalReferralEarnings a + grandAmount
        else s1.totalReferralEarnings a,
      userReferrals := fun a =>
        if a = gref then
          { s1.userReferrals a with
            totalEarnings := (s1.userReferrals a).totalEarnings + grandAmount }
        else s1.userReferrals a }
  else s1

/-- The payout record written by `processContentPurchase` before the
transfers are attempted. -/
def basePayoutRecord (now contentId buyer miner totalAmount directAmount
    grandAmount totalReferralAmount : Nat) : PayoutRecord :=
  { contentId := contentId, buyer := buyer, miner := miner,
    totalAmount := totalAmount,
    minerAmount := totalAmount * MINER_RATE / 10000,
    evaluatorAmount := totalAmount * EVALUATOR_RATE / 10000,
    platformAmount := totalAmount * PLATFORM_RATE / 10000,
    directReferrerAmount := directAmount,
    grandReferrerAmount := grandAmount,
    residualPlatformAmount := totalAmount * PLATFORM_RATE / 10000 - totalReferralAmount,
    timestamp := now, completed := false }

/-- Body of `processContentPurchase` past its validation and underflow
guards: append the payout record, attempt the transfers against the oracle,
and on full success flip `completed` and update the referral accumulators. -/
def distributePayout (s : DistState) (oracle : Nat → Nat → Bool)
    (now contentId buyer miner totalAmount directAmount grandAmount
     totalReferralAmount : Nat) : Bool × DistState :=
  let evaluatorAmount := totalAmount * EVALUATOR_RATE / 10000
  let platformAmount := totalAmount * PLATFORM_RATE / 10000
  let residualPlatformAmount := platformAmount - totalReferralAmount
  let payoutId := s.totalPayouts
  let rec0 := basePayoutRecord now contentId buyer miner totalAmount
    directAmount grandAmount totalReferralAmount
  let s1 : DistState :=
    { s with totalPayouts := s.totalPayouts + 1,
             payouts := fun i => if i = payoutId then rec0 else s.payouts i }
  let r := runTransfers oracle
    (plannedTransfers s1 miner evaluatorAmount residualPlatformAmount
      buyer directAmount grandAmount)
  let s2 : DistState := { s1 with transferLog := s1.transferLog ++ r.2 }
  if r.1 = true then
    let s3 : DistState :=
      { s2 with payouts := fun i =>
          if i = payoutId then { rec0 with completed := true } else s2.payouts i }
    let s4 :=
      if 0 < totalReferralAmount then
        updateReferralStats s3 buyer directAmount grandAmount
      else s3
    (true, s4)
  else (false, s2)

/-- `processContentPurchase`.  Result `none` is a revert (state unchanged);
`some (success, s')` is a completed call returning `success`. -/
def processContentPurchase (s : DistState) (oracle : Nat → Nat → Bool)
    (now contentId buyer miner totalAmount : Nat) : Option (Bool × DistState) :=
  if s.paused = true then none
  else if buyer = 0 then none
  else if miner = 0 then none
  else if totalAmount = 0 then none
  else if UMAX < totalAmount * MINER_RATE then none
  else if UMAX < totalAmount * EVALUATOR_RATE then none
  else if UMAX < totalAmount * PLATFORM_RATE then none
  else
    match calculateReferralPayouts s buyer totalAmount with
    | none => none
    | some (directAmount, grandAmount, totalReferralAmount) =>
      if totalAmount * PLATFORM_RATE / 10000 < totalReferralAmount then none
      else some (distributePayout s oracle now contentId buyer miner totalAmount
        directAmount grandAmount totalReferralAmount)

/-- `registerReferral` (privileged; the owner check is outside the model). -/
def registerReferral (s : DistState) (user directReferrer grandReferrer : Nat)
    (tier : Tier) : Option DistState :=
  if user = 0 then none
  else if directReferrer = 0 then none
  else if user = directReferrer then none
  else if user = grandReferrer then none
  else if directReferrer = grandReferrer then none
  else some { s with userReferrals := fun a =>
    if a = user then ⟨directReferrer, grandReferrer, tier, true, 0, 0⟩
    else s.userReferrals a }

/-- `updateUserTier` (privileged). -/
def updateUserTier (s : DistState) (user : Nat) (newTier : Tier) : Option DistState :=
  if (s.userReferrals user).isActive = true then
    some { s with userReferrals := fun a =>
      if a = user then { s.userReferrals a with tier := newTier }
      else s.userReferrals a }
  else none

/-- `updateReferralRates` (privileged): caps of 10% direct / 5% grand. -/
def updateReferralRates (s : DistState) (tier : Tier) (directRate grandRate : Nat) :
    Option DistState :=
  if directRate ≤ 1000 ∧ grandRate ≤ 500 then
    some { s with
      directReferrerRates := fun t => if t = tier then directRate else s.directReferrerRates t,
      grandReferrerRates := fun t => if t = tier then grandRate else s.grandReferrerRates t }
  else none

/-- `setEvaluatorTreasury` (privileged). -/
def setEvaluatorTreasury (s : DistState) (a : Nat) : Option DistState :=
  if a = 0 then none else some { s with evaluatorTreasury := a }

/-- `setPlatformTreasury` (privileged). -/
def setPlatformTreasury (s : DistState) (a : Nat) : Option DistState :=
  if a = 0 then none else some { s with platformTreasury := a }

/-- `deactivateReferral` (privileged): clears `isActive`, nothing else. -/
def deactivateReferral (s : DistState) (user : Nat) : DistState :=
  { s with userReferrals := fun a =>
      if a = user then { s.userReferrals a with isActive := false }
      else s.userReferrals a }

/-- `pause` (privileged, requires not yet paused). -/
def pauseDist (s : DistState) : Option DistState :=
  if s.paused = true then none else some { s with paused := true }

/-- `unpause` (privileged, requires paused). -/
def unpauseDist (s : DistState) : Option DistState :=
  if s.paused = true then some { s with paused := false } else none

/-- One completed state-mutating call of `ContentRewardDistribution`. -/
inductive DistStep : DistState → DistState → Prop
  | process (s : DistState) (oracle : Nat → Nat → Bool)
      (now contentId buyer miner totalAmount : Nat) (ok : Bool) (s' : DistState) :
      processContentPurchase s oracle now contentId buyer miner totalAmount
        = some (ok, s') → DistStep s s'
  | register (s : DistState) (user dref gref : Nat) (tier : Tier) (s' : DistState) :
      registerReferral s user dref gref tier = some s' → DistStep s s'
  | updTier (s : DistState) (user : Nat) (tier : Tier) (s' : DistState) :
      updateUserTier s user tier = some s' → DistStep s s'
  | updRates (s : DistState) (tier : Tier) (dr gr : Nat) (s' : DistState) :
      updateReferralRates s tier dr gr = some s' → DistStep s s'
  | setEval (s : DistState) (a : Nat) (s' : DistState) :
      setEvaluatorTreasury s a = some s' → DistStep s s'
  | setPlat (s : DistState) (a : Nat) (s' : DistState) :
      setPlatformTreasury s a = some s' → DistStep s s'
  | deact (s : DistState) (user : Nat) : DistStep s (deactivateReferral s user)
  | pause (s : DistState) (s' : DistState) : pauseDist s = some s' → DistStep s s'
  | unpause (s : DistState) (s' : DistState) : unpauseDist s = some s' → DistStep s s'

/-- Rate tables reachable from the constructor through `updateReferralRates`
(the only mutator of the rate mappings). -/
inductive RatesReachable : (Tier → Nat) → (Tier → Nat) → Prop
  | init : RatesReachable initialDirectRates initialGrandRates
  | update (d g : Tier → Nat) (tier : Tier) (dr gr : Nat) :
      dr ≤ 1000 → gr ≤ 500 → RatesReachable d g →
      RatesReachable (fun t => if t = tier then dr else d t)
        (fun t => if t = tier then gr else g t)

/-! ## ContentRegistry -/

/-- `Content` struct of the registry contract. -/
structure Content where
  contentId : Nat
  creator : Nat
  currentOwner : Nat
  contentHash : String
  personalizedHash : String
  price : Nat
  isAvailable : Bool
  isApproved : Bool
  isPersonalized : Bool
  createdAt : Nat
  approvedAt : Nat
  soldAt : Nat
  personalizedAt : Nat
  contentType : String
deriving DecidableEq, Repr

/-- Solidity mapping default for `Content`. -/
def Content.zero : Content :=
  ⟨0, 0, 0, "", "", 0, false, false, false, 0, 0, 0, 0, ""⟩

/-- Storage of `ContentRegistry`. -/
structure RegistryState where
  contents : Nat → Content
  userContents : Nat → List Nat
  contentExistsMap : Nat → Bool
  totalContent : Nat
  rewardDistribution : Nat
  roastToken : Nat
  paused : Bool

/-- Registry state produced by the constructor. -/
def initRegistry (roastToken : Nat) : RegistryState :=
  { contents := fun _ => Content.zero
    userContents := fun _ => []
    contentExistsMap := fun _ => false
    totalContent := 0
    rewardDistribution := 0
    roastToken := roastToken
    paused := false }

/-- `registerContent` (open to anyone). -/
def registerContent (s : RegistryState) (now contentId creator : Nat)
    (contentHash contentType : String) : Option RegistryState :=
  if creator = 0 then none
  else if s.contentExistsMap contentId = true then none
  else if contentHash = "" then none
  else if contentType = "" then none
  else some { s with
    contents := fun i =>
      if i = contentId then
        { contentId := contentId, creator := creator, currentOwner := creator,
          contentHash := contentHash, personalizedHash := "", price := 0,
          isAvailable := false, isApproved := false, isPersonalized := false,
          createdAt := now, approvedAt := 0, soldAt := 0, personalizedAt := 0,
          contentType := contentType }
      else s.contents i,
    contentExistsMap := fun i => if i = contentId then true else s.contentExistsMap i,
    totalContent := s.totalContent + 1 }

/-- `approveContent` (privileged). -/
def approveContent (s : RegistryState) (now contentId price : Nat) :
    Option RegistryState :=
  if s.contentExistsMap contentId = false then none
  else if (s.contents contentId).isApproved = true then none
  else if price = 0 then none
  else
    let c := s.contents contentId
    let c' := { c with currentOwner := c.creator, price := price,
                       isAvailable := true, isApproved := true, approvedAt := now }
    some { s with
      contents := fun i => if i = contentId then c' else s.contents i,
      userContents := fun a =>
        if a = c.creator then s.userContents a ++ [contentId] else s.userContents a }

/-- `updatePrice` (privileged). -/
def updatePrice (s : RegistryState) (contentId newPrice : Nat) :
    Option RegistryState :=
  if s.contentExistsMap contentId = false then none
  else if (s.contents contentId).isApproved = false then none
  else if (s.contents contentId).isAvailable = false then none
  else if newPrice = 0 then none
  else some { s with contents := fun i =>
    if i = contentId then { s.contents i with price := newPrice } else s.contents i }

/-- `purchaseContent`, called by `buyer`.  `transferFromOk` tells whether the
buyer-to-registry `transferFrom` goes through (the token aborts the whole
transaction on failure); `forwardOk` and `engineOk` play the same role for
the registry-to-engine forwarding transfer and the engine call, which are
only reached when a reward-distribution address is configured. -/
def purchaseContent (s : RegistryState) (now buyer contentId : Nat)
    (transferFromOk forwardOk engineOk : Bool) : Option RegistryState :=
  if s.paused = true then none
  else if s.contentExistsMap contentId = false then none
  else if (s.contents contentId).isAvailable = false then none
  else if transferFromOk = false then none
  else
    let c := s.contents contentId
    let c' := { c with currentOwner := buyer, isAvailable := false, soldAt := now }
    let s' : RegistryState := { s with
      contents := fun i => if i = contentId then c' else s.contents i,
      userContents := fun a =>
        if a = buyer then s.userContents a ++ [contentId] else s.userContents a }
    if s.rewardDistribution ≠ 0 then
      if forwardOk = true ∧ engineOk = true then some s' else none
    else some s'

/-- `purchaseContentWithPermit`: the permit is executed first (`permitOk`),
then the flow of `purchaseContent`. -/
def purchaseContentWithPermit (s : RegistryState) (now buyer contentId : Nat)
    (permitOk transferFromOk forwardOk engineOk : Bool) : Option RegistryState :=
  if permitOk = false then none
  else purchaseContent s now buyer contentId transferFromOk forwardOk engineOk

/-- `markContentPersonalized`, called by `caller`. -/
def markContentPersonalized (s : RegistryState) (now caller contentId : Nat)
    (personalizedHash : String) : Option RegistryState :=
  if s.contentExistsMap contentId = false then none
  else if (s.contents contentId).currentOwner ≠ caller then none
  else if (s.contents contentId).isPersonalized = true then none
  else if personalizedHash = "" then none
  else
    let c := s.contents contentId
    let c' := { c with personalizedHash := personalizedHash,
                       isPersonalized := true, personalizedAt := now }
    some { s with contents := fun i => if i = contentId then c' else s.contents i }

/-- `setRewardDistribution` (privileged). -/
def setRewardDistribution (s : RegistryState) (a : Nat) : RegistryState :=
  { s with rewardDistribution := a }

/-- `setRoastToken` (privileged). -/
def setRoastToken (s : RegistryState) (a : Nat) : Option RegistryState :=
  if a = 0 then none else some { s with roastToken := a }

/-- `pause` on the registry. -/
def pauseRegistry (s : RegistryState) : Option RegistryState :=
  if s.paused = true then none else some { s with paused := true }

/-- `unpause` on the registry. -/
def unpauseRegistry (s : RegistryState) : Option RegistryState :=
  if s.paused = true then some { s with paused := false } else none

/-- Registry states reachable from the constructor through any sequence of
the contract's operations. -/
inductive RegReachable : RegistryState → Prop
  | init (tok : Nat) : RegReachable (initRegistry tok)
  | register (s : RegistryState) (now id creator : Nat) (h t : String)
      (s' : RegistryState) : RegReachable s →
      registerContent s now id creator h t = some s' → RegReachable s'
  | approve (s : RegistryState) (now id price : Nat) (s' : RegistryState) :
      RegReachable s → approveContent s now id price = some s' → RegReachable s'
  | price (s : RegistryState) (id p : Nat) (s' : RegistryState) :
      RegReachable s → updatePrice s id p = some s' → RegReachable s'
  | purchase (s : RegistryState) (now buyer id : Nat) (b1 b2 b3 : Bool)
      (s' : RegistryState) : RegReachable s →
      purchaseContent s now buyer id b1 b2 b3 = some s' → RegReachable s'
  | purchasePermit (s : RegistryState) (now buyer id : Nat) (b0 b1 b2 b3 : Bool)
      (s' : RegistryState) : RegReachable s →
      purchaseContentWithPermit s now buyer id b0 b1 b2 b3 = some s' → RegReachable s'
  | personalize (s : RegistryState) (now caller id : Nat) (h : String)
      (s' : RegistryState) : RegReachable s →
      markContentPersonalized s now caller id h = some s' → RegReachable s'
  | setDist (s : RegistryState) (a : Nat) : RegReachable s →
      RegReachable (setRewardDistribution s a)
  | setTok (s : RegistryState) (a : Nat) (s' : RegistryState) : RegReachable s →
      setRoastToken s a = some s' → RegReachable s'
  | pause (s : RegistryState) (s' : RegistryState) : RegReachable s →
      pauseRegistry s = some s' → RegReachable s'
  | unpause (s : RegistryState) (s' : RegistryState) : RegReachable s →
      unpauseRegistry s = some s' → RegReachable s'

/-- The five transfer legs of one `processContentPurchase` call, in the
fixed source order, expressed over the pre-call state (the miner amount
`_executeTransfers` re-reads from the freshly written payout record is the
computed one).  `plannedTransfers` applied to the written intermediate state
reduces to this list. -/
def payoutLegs (s : DistState) (buyer miner totalAmount directAmount grandAmount
    totalReferralAmount : Nat) : List (Nat × Nat) :=
  [(miner, totalAmount * MINER_RATE / 10000)]
    ++ (if 0 < totalAmount * EVALUATOR_RATE / 10000 then
          [(s.evaluatorTreasury, totalAmount * EVALUATOR_RATE / 10000)] else [])
    ++ (if 0 < totalAmount * PLATFORM_RATE / 10000 - totalReferralAmount then
          [(s.platformTreasury, totalAmount * PLATFORM_RATE / 10000 - totalReferralAmount)] else [])
    ++ (if 0 < directAmount then
          [((s.userReferrals buyer).directReferrer, directAmount)] else [])
    ++ (if 0 < grandAmount then
          [((s.userReferrals buyer).grandReferrer, grandAmount)] else [])

/-! ## Concrete states for evaluating the definitions -/

/-- Engine state for concrete runs: buyer `10` holds an active SILVER record
with direct referrer `11` and grand referrer `12`, whose own record is
active; rates are the constructor's. -/
def sampleDist : DistState :=
  { evaluatorTreasury := 2
    platformTreasury := 3
    userReferrals := fun a =>
      if a = 10 then ⟨11, 12, Tier.SILVER, true, 0, 0⟩
      else if a = 12 then ⟨13, 0, Tier.SILVER, true, 0, 0⟩
      else ReferralData.zero
    totalReferralEarnings := fun _ => 0
    payouts := fun _ => PayoutRecord.zero
    totalPayouts := 0
    directReferrerRates := initialDirectRates
    grandReferrerRates := initialGrandRates
    paused := false
    transferLog := [] }

/-- Token oracle under which every transfer succeeds. -/
def orAll : Nat → Nat → Bool := fun _ _ => true

/-- Token oracle under which transfers to the evaluator treasury (address
`2` in `sampleDist`) fail and every other transfer succeeds. -/
def orFailEval : Nat → Nat → Bool := fun r _ => decide (r ≠ 2)

/-- Result of a fully successful sample purchase of amount 1000 by buyer 10. -/
def sampleRun : Bool × DistState :=
  (processContentPurchase sampleDist orAll 7 42 10 20 1000).getD (false, sampleDist)

/-- Result of a sample purchase whose evaluator-treasury leg fails. -/
def sampleRunFail : Bool × DistState :=
  (processContentPurchase sampleDist orFailEval 7 42 10 20 1000).getD (false, sampleDist)

/-- Result of a sample purchase by buyer `99`, who has no referral record. -/
def sampleRunNoRef : Bool × DistState :=
  (processContentPurchase sampleDist orAll 7 43 99 20 1000).getD (false, sampleDist)

/-- Registry state right after construction. -/
def regS0 : RegistryState := initRegistry 5

/-- Registry state after registering content 42 for creator 7. -/
def regS1 : RegistryState := (registerContent regS0 1 42 7 "Qm1" "text").getD regS0

/-- Registry state after approving content 42 at price 1000. -/
def regS2 : RegistryState := (approveContent regS1 2 42 1000).getD regS1

/-- Registry state after buyer 9 purchases content 42. -/
def regS3 : RegistryState := (purchaseContent regS2 3 9 42 true true true).getD regS2

/-! ## Helper lemmas: transfer runner -/

/-- When every leg went through, the executed transfers are exactly the
planned ones. -/
theorem runTransfers_true_exec (oracle : Nat → Nat → Bool) (L : List (Nat × Nat))
    (h : (runTransfers oracle L).1 = true) : (runTransfers oracle L).2 = L := by
  induction L with
  | nil => rfl
  | cons t ts ih =>
    by_cases ho : oracle t.1 t.2 = true
    · simp only [runTransfers, ho, if_true] at h ⊢
      exact congrArg (t :: ·) (ih h)
    · simp only [runTransfers] at h
      rw [if_neg ho] at h
      simp at h

/-- When the runner reports failure, the planned list splits into a prefix
of succeeding legs, the first failing leg, and an unattempted remainder, and
only the prefix was executed. -/
theorem runTransfers_false_exec (oracle : Nat → Nat → Bool) (L : List (Nat × Nat))
    (h : (runTransfers oracle L).1 = false) :
    ∃ pre leg post, L = pre ++ leg :: post ∧
      (∀ u ∈ pre, oracle u.1 u.2 = true) ∧ oracle leg.1 leg.2 = false ∧
      (runTransfers oracle L).2 = pre := by
  induction L with
  | nil => simp [runTransfers] at h
  | cons t ts ih =>
    by_cases ho : oracle t.1 t.2 = true
    · simp only [runTransfers, ho, if_true] at h ⊢
      obtain ⟨pre, leg, post, hL, hpre, hleg, hex⟩ := ih h
      refine ⟨t :: pre, leg, post, by rw [hL]; rfl, ?_, hleg, ?_⟩
      · intro u hu
        rcases List.mem_cons.mp hu with h1 | h2
        · rw [h1]; exact ho
        · exact hpre u h2
      · exact congrArg (t :: ·) hex
    · refine ⟨[], t, ts, rfl, by simp, by simpa using ho, ?_⟩
      simp only [runTransfers]
      rw [if_neg ho]

/-- A leg that succeeds under the oracle and is planned is executed whenever
the whole run succeeds or the failure happens later; in particular on a
fully successful run every planned leg is executed. -/
theorem runTransfers_true_mem (oracle : Nat → Nat → Bool) (L : List (Nat × Nat))
    (h : (runTransfers oracle L).1 = true) (u : Nat × Nat) (hu : u ∈ L) :
    u ∈ (runTransfers oracle L).2 := by
  rw [runTransfers_true_exec oracle L h]; exact hu

/-- A run that reports success had every planned leg succeed. -/
theorem runTransfers_true_all (oracle : Nat → Nat → Bool) (L : List (Nat × Nat))
    (h : (runTransfers oracle L).1 = true) : ∀ u ∈ L, oracle u.1 u.2 = true := by
  induction L with
  | nil => intro u hu; exact absurd hu (List.not_mem_nil u)
  | cons t ts ih =>
    by_cases ho : oracle t.1 t.2 = true
    · simp only [runTransfers, ho, if_true] at h
      intro u hu
      rcases List.mem_cons.mp hu with h1 | h2
      · rw [h1]; exact ho
      · exact ih h u h2
    · simp only [runTransfers] at h
      rw [if_neg ho] at h
      simp at h

/-! ## Helper lemmas: referral statistics update -/

/-- `_updateReferralStats` leaves the payout ledger untouched. -/
theorem updateReferralStats_payouts (s : DistState) (b d g : Nat) :
    (updateReferralStats s b d g).payouts = s.payouts := by
  simp only [updateReferralStats]
  split <;> (try split) <;> rfl

/-- `_updateReferralStats` leaves the payout counter untouched. -/
theorem updateReferralStats_totalPayouts (s : DistState) (b d g : Nat) :
    (updateReferralStats s b d g).totalPayouts = s.totalPayouts := by
  simp only [updateReferralStats]
  split <;> (try split) <;> rfl

/-- `_updateReferralStats` leaves the transfer journal untouched. -/
theorem updateReferralStats_transferLog (s : DistState) (b d g : Nat) :
    (updateReferralStats s b d g).transferLog = s.transferLog := by
  simp only [updateReferralStats]
  split <;> (try split) <;> rfl

/-- The referral-statistics update reads only the referral maps, so two
states agreeing on them produce the same updated maps. -/
theorem updateReferralStats_congr (s1 s2 : DistState) (b d g : Nat)
    (hur : s1.userReferrals = s2.userReferrals)
    (htre : s1.totalReferralEarnings = s2.totalReferralEarnings) :
    (updateReferralStats s1 b d g).userReferrals
      = (updateReferralStats s2 b d g).userReferrals ∧
    (updateReferralStats s1 b d g).totalReferralEarnings
      = (updateReferralStats s2 b d g).totalReferralEarnings := by
  by_cases hg : 0 < g <;> by_cases hd : 0 < d <;>
    simp [updateReferralStats, hg, hd, hur, htre]

/-- Effect of `_updateReferralStats` on the direct referrer when the direct
leg is positive: earnings grow by the leg and the referral count by one
(the record's two referrers differ, as `registerReferral` enforces). -/
theorem updateReferralStats_direct_effects (s : DistState) (b d g : Nat)
    (hd : 0 < d)
    (hne : (s.userReferrals b).directReferrer ≠ (s.userReferrals b).grandReferrer) :
    (updateReferralStats s b d g).totalReferralEarnings ((s.userReferrals b).directReferrer)
      = s.totalReferralEarnings ((s.userReferrals b).directReferrer) + d ∧
    ((updateReferralStats s b d g).userReferrals ((s.userReferrals b).directReferrer)).totalEarnings
      = (s.userReferrals ((s.userReferrals b).directReferrer)).totalEarnings + d ∧
    ((updateReferralStats s b d g).userReferrals ((s.userReferrals b).directReferrer)).totalReferrals
      = (s.userReferrals ((s.userReferrals b).directReferrer)).totalReferrals + 1 := by
  by_cases hg : 0 < g
  · by_cases hbd : b = (s.userReferrals b).directReferrer
    · have hbg : ¬ b = (s.userReferrals b).grandReferrer :=
        fun hcontra => hne (hbd.symm.trans hcontra)
      simp [updateReferralStats, hd, hg, ← hbd, hbg]
    · simp [updateReferralStats, hd, hg, hbd, hne]
  · simp [updateReferralStats, hd, hg]

/-! ## Helper lemmas: the distribution body -/

/-- The transfer list `_executeTransfers` builds from the freshly written
state is `payoutLegs` over the pre-call state. -/
theorem plannedTransfers_written (s : DistState) (now cid buyer miner A d g t : Nat) :
    plannedTransfers
      { s with totalPayouts := s.totalPayouts + 1,
               payouts := fun i => if i = s.totalPayouts then
                 basePayoutRecord now cid buyer miner A d g t else s.payouts i }
      miner (A * EVALUATOR_RATE / 10000) (A * PLATFORM_RATE / 10000 - t) buyer d g
      = payoutLegs s buyer miner A d g t := by
  simp [plannedTransfers, payoutLegs, basePayoutRecord]

/-- Full characterization of `distributePayout`: the payout counter grows by
one, the new record is written at the old counter with `completed` equal to
the overall transfer success, older records are untouched, the executed
transfers are journalled, and the referral accumulators move exactly when
all legs succeeded and the referral total is positive. -/
theorem distributePayout_inv (s : DistState) (oracle : Nat → Nat → Bool)
    (now cid buyer miner A d g t : Nat) (b : Bool) (s' : DistState)
    (h : distributePayout s oracle now cid buyer miner A d g t = (b, s')) :
    s'.totalPayouts = s.totalPayouts + 1 ∧
    b = (runTransfers oracle (payoutLegs s buyer miner A d g t)).1 ∧
    s'.payouts s.totalPayouts
      = { basePayoutRecord now cid buyer miner A d g t with completed := b } ∧
    (∀ i, i ≠ s.totalPayouts → s'.payouts i = s.payouts i) ∧
    s'.transferLog = s.transferLog
      ++ (runTransfers oracle (payoutLegs s buyer miner A d g t)).2 ∧
    (b = false → s'.userReferrals = s.userReferrals ∧
      s'.totalReferralEarnings = s.totalReferralEarnings) ∧
    (b = true → 0 < t →
      s'.userReferrals = (updateReferralStats s buyer d g).userReferrals ∧
      s'.totalReferralEarnings = (updateReferralStats s buyer d g).totalReferralEarnings) ∧
    (b = true → t = 0 →
      s'.userReferrals = s.userReferrals ∧
      s'.totalReferralEarnings = s.totalReferralEarnings) := by
  simp only [distributePayout, plannedTransfers_written] at h
  split at h
  · rename_i hr
    rw [Prod.mk.injEq] at h
    obtain ⟨hb, hs⟩ := h
    subst hb
    by_cases ht : 0 < t
    · rw [if_pos ht] at hs
      subst hs
      refine ⟨?_, hr.symm, ?_, ?_, ?_, by simp, fun _ _ => ?_,
        fun _ ht0 => absurd ht (by omega)⟩
      · simp [updateReferralStats_totalPayouts]
      · simp [updateReferralStats_payouts, basePayoutRecord]
      · intro i hi
        simp [updateReferralStats_payouts, hi]
      · simp [updateReferralStats_transferLog]
      · exact updateReferralStats_congr _ _ buyer d g rfl rfl
    · rw [if_neg ht] at hs
      subst hs
      exact ⟨rfl, hr.symm, by simp [basePayoutRecord], fun i hi => by simp [hi], rfl,
        by simp, fun _ ht' => absurd ht' ht, fun _ _ => ⟨rfl, rfl⟩⟩
  · rename_i hr
    rw [Prod.mk.injEq] at h
    obtain ⟨hb, hs⟩ := h
    subst hb
    subst hs
    have hr' : (runTransfers oracle (payoutLegs s buyer miner A d g t)).1 = false := by
      revert hr
      cases (runTransfers oracle (payoutLegs s buyer miner A d g t)).1 <;> simp
    exact ⟨rfl, hr'.symm, by simp [basePayoutRecord], fun i hi => by simp [hi], rfl,
      fun _ => ⟨rfl, rfl⟩, fun htr => absurd htr.symm (by simp [hr']),
      fun htr => absurd htr.symm (by simp [hr'])⟩

/-- Characterization of a completed `_calculateReferralPayouts` call: the
total is the sum of the two legs; an inactive (or absent) buyer record
yields zeros, and an active one yields the tier formulas, with the grand leg
gated on a non-null and active grand referrer. -/
theorem calcInv {s : DistState} {buyer A d g t : Nat}
    (h : calculateReferralPayouts s buyer A = some (d, g, t)) :
    t = d + g ∧
    (((s.userReferrals buyer).isActive = false ∧ d = 0 ∧ g = 0) ∨
     ((s.userReferrals buyer).isActive = true ∧
      d = A * s.directReferrerRates (s.userReferrals buyer).tier / 10000 ∧
      g = (if (s.userReferrals buyer).grandReferrer ≠ 0 ∧
              (s.userReferrals (s.userReferrals buyer).grandReferrer).isActive = true
           then A * s.grandReferrerRates (s.userReferrals buyer).tier / 10000
           else 0))) := by
  simp only [calculateReferralPayouts] at h
  split at h
  · rename_i hact
    simp only [Option.some.injEq, Prod.mk.injEq] at h
    obtain ⟨hd, hg, ht⟩ := h
    exact ⟨by omega, Or.inl ⟨hact, hd.symm, hg.symm⟩⟩
  · rename_i hact
    rw [Bool.not_eq_false] at hact
    split at h
    · exact Option.noConfusion h
    · split at h
      · rename_i hgc
        split at h
        · exact Option.noConfusion h
        · simp only [Option.some.injEq, Prod.mk.injEq] at h
          obtain ⟨hd, hg, ht⟩ := h
          exact ⟨by omega, Or.inr ⟨hact, hd.symm, by rw [if_pos hgc]; exact hg.symm⟩⟩
      · rename_i hgc
        simp only [Option.some.injEq, Prod.mk.injEq] at h
        obtain ⟨hd, hg, ht⟩ := h
        exact ⟨by omega, Or.inr ⟨hact, hd.symm, by rw [if_neg hgc]; exact hg.symm⟩⟩

/-- An inactive buyer record always computes `(0, 0, 0)`. -/
theorem calc_inactive {s : DistState} {buyer A : Nat}
    (h : (s.userReferrals buyer).isActive = false) :
    calculateReferralPayouts s buyer A = some (0, 0, 0) := by
  simp [calculateReferralPayouts, h]

/-- Inversion of a completed (non-reverting) `processContentPurchase` call:
all validations passed, the referral calculator produced legs whose total
does not exceed the platform leg, and the result is `distributePayout`. -/
theorem processInv {s : DistState} {oracle : Nat → Nat → Bool}
    {now cid buyer miner A : Nat} {ok : Bool} {s' : DistState}
    (h : processContentPurchase s oracle now cid buyer miner A = some (ok, s')) :
    s.paused = false ∧ buyer ≠ 0 ∧ miner ≠ 0 ∧ A ≠ 0 ∧
    ∃ d g t, calculateReferralPayouts s buyer A = some (d, g, t) ∧
      t ≤ A * PLATFORM_RATE / 10000 ∧
      distributePayout s oracle now cid buyer miner A d g t = (ok, s') := by
  have hp : s.paused = false := by
    by_contra hc
    rw [Bool.not_eq_false] at hc
    simp [processContentPurchase, hc] at h
  have hb : ¬ buyer = 0 := by
    intro hc; simp [processContentPurchase, hp, hc] at h
  have hm : ¬ miner = 0 := by
    intro hc; simp [processContentPurchase, hp, hb, hc] at h
  have hA : ¬ A = 0 := by
    intro hc; simp [processContentPurchase, hp, hb, hm, hc] at h
  have h1 : ¬ UMAX < A * MINER_RATE := by
    intro hc; simp [processContentPurchase, hp, hb, hm, hA, hc] at h
  have h2 : ¬ UMAX < A * EVALUATOR_RATE := by
    intro hc; simp [processContentPurchase, hp, hb, hm, hA, h1, hc] at h
  have h3 : ¬ UMAX < A * PLATFORM_RATE := by
    intro hc; simp [processContentPurchase, hp, hb, hm, hA, h1, h2, hc] at h
  refine ⟨hp, hb, hm, hA, ?_⟩
  cases hcalc : calculateReferralPayouts s buyer A with
  | none => simp [processContentPurchase, hp, hb, hm, hA, h1, h2, h3, hcalc] at h
  | some dgt =>
    obtain ⟨d, g, t⟩ := dgt
    simp only [processContentPurchase, hp, hb, hm, hA, h1, h2, h3, hcalc,
      Bool.false_eq_true, if_false, if_neg, not_false_iff] at h
    by_cases hu : A * PLATFORM_RATE / 10000 < t
    · rw [if_pos hu] at h
      exact Option.noConfusion h
    · rw [if_neg hu] at h
      exact ⟨d, g, t, rfl, Nat.not_lt.mp hu, Option.some.inj h⟩

/-! ## Helper lemmas: payout-ledger frames of the other operations -/

/-- `registerReferral` writes only the referral map. -/
theorem registerReferral_frame {s : DistState} {user dref gref : Nat} {tier : Tier}
    {s' : DistState} (h : registerReferral s user dref gref tier = some s') :
    s'.payouts = s.payouts ∧ s'.totalPayouts = s.totalPayouts := by
  simp only [registerReferral] at h
  split at h
  · exact Option.noConfusion h
  split at h
  · exact Option.noConfusion h
  split at h
  · exact Option.noConfusion h
  split at h
  · exact Option.noConfusion h
  split at h
  · exact Option.noConfusion h
  obtain rfl := Option.some.inj h
  exact ⟨rfl, rfl⟩

/-- `updateUserTier` writes only the referral map. -/
theorem updateUserTier_frame {s : DistState} {user : Nat} {tier : Tier}
    {s' : DistState} (h : updateUserTier s user tier = some s') :
    s'.payouts = s.payouts ∧ s'.totalPayouts = s.totalPayouts := by
  simp only [updateUserTier] at h
  split at h
  · obtain rfl := Option.some.inj h; exact ⟨rfl, rfl⟩
  · exact Option.noConfusion h

/-- `updateReferralRates` writes only the rate tables. -/
theorem updateReferralRates_frame {s : DistState} {tier : Tier} {dr gr : Nat}
    {s' : DistState} (h : updateReferralRates s tier dr gr = some s') :
    s'.payouts = s.payouts ∧ s'.totalPayouts = s.totalPayouts := by
  simp only [updateReferralRates] at h
  split at h
  · obtain rfl := Option.some.inj h; exact ⟨rfl, rfl⟩
  · exact Option.noConfusion h

/-- `setEvaluatorTreasury` writes only the treasury address. -/
theorem setEvaluatorTreasury_frame {s : DistState} {a : Nat} {s' : DistState}
    (h : setEvaluatorTreasury s a = some s') :
    s'.payouts = s.payouts ∧ s'.totalPayouts = s.totalPayouts := by
  simp only [setEvaluatorTreasury] at h
  split at h
  · exact Option.noConfusion h
  · obtain rfl := Option.some.inj h; exact ⟨rfl, rfl⟩

/-- `setPlatformTreasury` writes only the treasury address. -/
theorem setPlatformTreasury_frame {s : DistState} {a : Nat} {s' : DistState}
    (h : setPlatformTreasury s a = some s') :
    s'.payouts = s.payouts ∧ s'.totalPayouts = s.totalPayouts := by
  simp only [setPlatformTreasury] at h
  split at h
  · exact Option.noConfusion h
  · obtain rfl := Option.some.inj h; exact ⟨rfl, rfl⟩

/-- `pause` writes only the pause flag. -/
theorem pauseDist_frame {s : DistState} {s' : DistState}
    (h : pauseDist s = some s') :
    s'.payouts = s.payouts ∧ s'.totalPayouts = s.totalPayouts := by
  simp only [pauseDist] at h
  split at h
  · exact Option.noConfusion h
  · obtain rfl := Option.some.inj h; exact ⟨rfl, rfl⟩

/-- `unpause` writes only the pause flag. -/
theorem unpauseDist_frame {s : DistState} {s' : DistState}
    (h : unpauseDist s = some s') :
    s'.payouts = s.payouts ∧ s'.totalPayouts = s.totalPayouts := by
  simp only [unpauseDist] at h
  split at h
  · obtain rfl := Option.some.inj h; exact ⟨rfl, rfl⟩
  · exact Option.noConfusion h

/-- Across every operation of the engine, the payout counter never
decreases and already-written payout records are never overwritten. -/
theorem distStep_mono {s s' : DistState} (h : DistStep s s') :
    s.totalPayouts ≤ s'.totalPayouts ∧
    ∀ i, i < s.totalPayouts → s'.payouts i = s.payouts i := by
  cases h with
  | process oracle now cid buyer miner A ok s2 hp =>
    obtain ⟨-, -, -, -, d, g, t, -, -, hdp⟩ := processInv hp
    obtain ⟨h1, -, -, h4, -, -, -, -⟩ :=
      distributePayout_inv _ _ _ _ _ _ _ _ _ _ _ _ hdp
    exact ⟨by omega, fun i hi => h4 i (by omega)⟩
  | register user dref gref tier s2 h =>
    obtain ⟨hp, ht⟩ := registerReferral_frame h
    exact ⟨Nat.le_of_eq ht.symm, fun i _ => by rw [hp]⟩
  | updTier user tier s2 h =>
    obtain ⟨hp, ht⟩ := updateUserTier_frame h
    exact ⟨Nat.le_of_eq ht.symm, fun i _ => by rw [hp]⟩
  | updRates tier dr gr s2 h =>
    obtain ⟨hp, ht⟩ := updateReferralRates_frame h
    exact ⟨Nat.le_of_eq ht.symm, fun i _ => by rw [hp]⟩
  | setEval a s2 h =>
    obtain ⟨hp, ht⟩ := setEvaluatorTreasury_frame h
    exact ⟨Nat.le_of_eq ht.symm, fun i _ => by rw [hp]⟩
  | setPlat a s2 h =>
    obtain ⟨hp, ht⟩ := setPlatformTreasury_frame h
    exact ⟨Nat.le_of_eq ht.symm, fun i _ => by rw [hp]⟩
  | deact user => exact ⟨Nat.le_refl _, fun i _ => rfl⟩
  | pause s2 h =>
    obtain ⟨hp, ht⟩ := pauseDist_frame h
    exact ⟨Nat.le_of_eq ht.symm, fun i _ => by rw [hp]⟩
  | unpause s2 h =>
    obtain ⟨hp, ht⟩ := unpauseDist_frame h
    exact ⟨Nat.le_of_eq ht.symm, fun i _ => by rw [hp]⟩

/-! ## Helper lemmas: rate ceilings and division bounds -/

/-- Every reachable rate table obeys the constructor / update ceilings:
direct at most 10%, grand at most 5%. -/
theorem ratesReachable_bounded {d g : Tier → Nat} (h : RatesReachable d g) :
    ∀ t, d t ≤ 1000 ∧ g t ≤ 500 := by
  induction h with
  | init => intro t; cases t <;> simp [initialDirectRates, initialGrandRates]
  | update d g tier dr gr hd hg _ ih =>
    intro t
    by_cases ht : t = tier <;> simp [ht, hd, hg, ih t]

/-- Under reachable rates the two referral legs never exceed the platform
leg, so the residual-platform subtraction cannot underflow. -/
theorem referralTotal_le_platform {s : DistState} {buyer A d g t : Nat}
    (hr : RatesReachable s.directReferrerRates s.grandReferrerRates)
    (h : calculateReferralPayouts s buyer A = some (d, g, t)) :
    d + g ≤ A * PLATFORM_RATE / 10000 := by
  obtain ⟨ht, hcase⟩ := calcInv h
  rcases hcase with ⟨-, hd, hg⟩ | ⟨-, hd, hg⟩
  · subst hd; subst hg; exact Nat.zero_le _
  · have hdr := (ratesReachable_bounded hr (s.userReferrals buyer).tier).1
    have hgr := (ratesReachable_bounded hr (s.userReferrals buyer).tier).2
    have h1 : d ≤ A * 1000 / 10000 := by
      rw [hd]
      exact Nat.div_le_div_right (Nat.mul_le_mul (Nat.le_refl A) hdr)
    have h2 : g ≤ A * 500 / 10000 := by
      rw [hg]
      split
      · exact Nat.div_le_div_right (Nat.mul_le_mul (Nat.le_refl A) hgr)
      · exact Nat.zero_le _
    have h3 : A * 1000 / 10000 + A * 500 / 10000 ≤ (A * 1000 + A * 500) / 10000 :=
      Nat.add_div_le_add_div _ _ _
    have h4 : (A * 1000 + A * 500) / 10000 ≤ A * PLATFORM_RATE / 10000 := by
      refine Nat.div_le_div_right ?_
      have : A * 1000 + A * 500 = A * 1500 := by ring
      rw [this]
      exact Nat.mul_le_mul (Nat.le_refl A) (by norm_num [PLATFORM_RATE])
    omega

/-- The three base legs of the split: their sum is at most the amount, and
the truncation loss across the legs is below 5 units. -/
theorem base_split_bounds (A : Nat) :
    A * MINER_RATE / 10000 + A * EVALUATOR_RATE / 10000 + A * PLATFORM_RATE / 10000 ≤ A ∧
    A - (A * MINER_RATE / 10000 + A * EVALUATOR_RATE / 10000 + A * PLATFORM_RATE / 10000) < 5 := by
  have h1 := Nat.div_add_mod (A * 5000) 10000
  have h2 := Nat.div_add_mod (A * 2000) 10000
  have h3 := Nat.div_add_mod (A * 3000) 10000
  have m1 : A * 5000 % 10000 < 10000 := Nat.mod_lt _ (by omega)
  have m2 : A * 2000 % 10000 < 10000 := Nat.mod_lt _ (by omega)
  have m3 : A * 3000 % 10000 < 10000 := Nat.mod_lt _ (by omega)
  unfold MINER_RATE EVALUATOR_RATE PLATFORM_RATE
  omega

/-! ## Helper lemmas: registry operations -/

/-- Inversion of a completed `purchaseContent` call: its preconditions held,
and the new state differs exactly in the purchased content record and the
buyer's content index. -/
theorem purchaseContent_inv {s : RegistryState} {now buyer id : Nat}
    {b1 b2 b3 : Bool} {s' : RegistryState}
    (h : purchaseContent s now buyer id b1 b2 b3 = some s') :
    s.paused = false ∧ s.contentExistsMap id = true ∧
    (s.contents id).isAvailable = true ∧ b1 = true ∧
    s'.contents = (fun i => if i = id then
      { s.contents id with currentOwner := buyer, isAvailable := false, soldAt := now }
      else s.contents i) ∧
    s'.userContents = (fun a => if a = buyer then s.userContents a ++ [id]
      else s.userContents a) ∧
    s'.contentExistsMap = s.contentExistsMap ∧
    s'.totalContent = s.totalContent := by
  simp only [purchaseContent] at h
  split at h
  · exact Option.noConfusion h
  rename_i hp
  split at h
  · exact Option.noConfusion h
  rename_i he
  split at h
  · exact Option.noConfusion h
  rename_i ha
  split at h
  · exact Option.noConfusion h
  rename_i hb1
  rw [Bool.not_eq_true] at hp
  rw [Bool.not_eq_false] at he ha hb1
  refine ⟨hp, he, ha, hb1, ?_⟩
  split at h
  · split at h
    · obtain rfl := Option.some.inj h
      exact ⟨rfl, rfl, rfl, rfl⟩
    · exact Option.noConfusion h
  · obtain rfl := Option.some.inj h
    exact ⟨rfl, rfl, rfl, rfl⟩

/-- With a failing buyer-to-registry transfer the whole purchase reverts. -/
theorem purchaseContent_transfer_fail (s : RegistryState) (now buyer id : Nat)
    (b2 b3 : Bool) : purchaseContent s now buyer id false b2 b3 = none := by
  simp only [purchaseContent]
  split
  · rfl
  split
  · rfl
  split
  · rfl
  rfl

/-- The lifecycle invariant: in every reachable registry state an available
content record is approved. -/
theorem regReachable_inv {s : RegistryState} (h : RegReachable s) :
    ∀ i, (s.contents i).isAvailable = true → (s.contents i).isApproved = true := by
  induction h with
  | init tok =>
    intro i hi
    simp [initRegistry, Content.zero] at hi
  | register s now id creator hsh ctype s2 hprev heq ih =>
    intro i hi
    simp only [registerContent] at heq
    split at heq
    · exact Option.noConfusion heq
    split at heq
    · exact Option.noConfusion heq
    split at heq
    · exact Option.noConfusion heq
    split at heq
    · exact Option.noConfusion heq
    obtain rfl := Option.some.inj heq
    by_cases hii : i = id
    · simp [hii] at hi
    · simp only at hi ⊢
      rw [if_neg hii] at hi ⊢
      exact ih i hi
  | approve s now id price s2 hprev heq ih =>
    intro i hi
    simp only [approveContent] at heq
    split at heq
    · exact Option.noConfusion heq
    split at heq
    · exact Option.noConfusion heq
    split at heq
    · exact Option.noConfusion heq
    obtain rfl := Option.some.inj heq
    by_cases hii : i = id
    · simp [hii]
    · simp only at hi ⊢
      rw [if_neg hii] at hi ⊢
      exact ih i hi
  | price s id p s2 hprev heq ih =>
    intro i hi
    simp only [updatePrice] at heq
    split at heq
    · exact Option.noConfusion heq
    split at heq
    · exact Option.noConfusion heq
    split at heq
    · exact Option.noConfusion heq
    split at heq
    · exact Option.noConfusion heq
    obtain rfl := Option.some.inj heq
    by_cases hii : i = id
    · subst hii
      simp at hi ⊢
      exact ih i hi
    · simp [hii] at hi ⊢
      exact ih i hi
  | purchase s now buyer id b1 b2 b3 s2 hprev heq ih =>
    intro i hi
    obtain ⟨-, -, -, -, hc, -, -, -⟩ := purchaseContent_inv heq
    rw [hc] at hi ⊢
    by_cases hii : i = id
    · simp [hii] at hi
    · simp [hii] at hi ⊢
      exact ih i hi
  | purchasePermit s now buyer id b0 b1 b2 b3 s2 hprev heq ih =>
    intro i hi
    simp only [purchaseContentWithPermit] at heq
    split at heq
    · exact Option.noConfusion heq
    obtain ⟨-, -, -, -, hc, -, -, -⟩ := purchaseContent_inv heq
    rw [hc] at hi ⊢
    by_cases hii : i = id
    · simp [hii] at hi
    · simp [hii] at hi ⊢
      exact ih i hi
  | personalize s now caller id hsh s2 hprev heq ih =>
    intro i hi
    simp only [markContentPersonalized] at heq
    split at heq
    · exact Option.noConfusion heq
    split at heq
    · exact Option.noConfusion heq
    split at heq
    · exact Option.noConfusion heq
    split at heq
    · exact Option.noConfusion heq
    obtain rfl := Option.some.inj heq
    by_cases hii : i = id
    · subst hii
      simp at hi ⊢
      exact ih i hi
    · simp [hii] at hi ⊢
      exact ih i hi
  | setDist s a hprev ih =>
    intro i hi
    exact ih i hi
  | setTok s a s2 hprev heq ih =>
    intro i hi
    simp only [setRoastToken] at heq
    split at heq
    · exact Option.noConfusion heq
    obtain rfl := Option.some.inj heq
    exact ih i hi
  | pause s s2 hprev heq ih =>
    intro i hi
    simp only [pauseRegistry] at heq
    split at heq
    · exact Option.noConfusion heq
    obtain rfl := Option.some.inj heq
    exact ih i hi
  | unpause s s2 hprev heq ih =>
    intro i hi
    simp only [unpauseRegistry] at heq
    split at heq
    · obtain rfl := Option.some.inj heq
      exact ih i hi
    · exact Option.noConfusion heq

/-! ## The claims -/

/-- C6: if the initial buyer-to-Registry value transfer fails during
`purchaseContent`, the whole purchase reverts (`none`), so the effective
post-state keeps the content's `currentOwner`, `isAvailable`, `soldAt` and
the buyer's content index exactly as before the call. -/
theorem claim6_purchase_aborts_on_transfer_failure
    (s : RegistryState) (now buyer id : Nat) (b2 b3 : Bool) :
    purchaseContent s now buyer id false b2 b3 = none ∧
    (((purchaseContent s now buyer id false b2 b3).getD s).contents id).currentOwner
      = (s.contents id).currentOwner ∧
    (((purchaseContent s now buyer id false b2 b3).getD s).contents id).isAvailable
      = (s.contents id).isAvailable ∧
    (((purchaseContent s now buyer id false b2 b3).getD s).contents id).soldAt
      = (s.contents id).soldAt ∧
    ((purchaseContent s now buyer id false b2 b3).getD s).userContents buyer
      = s.userContents buyer := by
  have h := purchaseContent_transfer_fail s now buyer id b2 b3
  rw [h]
  exact ⟨rfl, rfl, rfl, rfl, rfl⟩

/-- C7: after every successful `purchaseContent`, the content's owner is the
buyer, it is no longer available, its sale timestamp is the call time, and
the buyer's content index holds the id exactly once more than before. -/
theorem claim7_ownership_transfer_exactness
    (s : RegistryState) (now buyer id : Nat) (b1 b2 b3 : Bool) (s' : RegistryState)
    (h : purchaseContent s now buyer id b1 b2 b3 = some s') :
    (s'.contents id).currentOwner = buyer ∧
    (s'.contents id).isAvailable = false ∧
    (s'.contents id).soldAt = now ∧
    (s'.userContents buyer).count id = (s.userContents buyer).count id + 1 := by
  obtain ⟨-, -, -, -, hc, hu, -, -⟩ := purchaseContent_inv h
  rw [hc, hu]
  refine ⟨by simp, by simp, by simp, ?_⟩
  simp

/-- Witness for C7: the sample purchase of content 42 by buyer 9. -/
theorem claim7_witness :
    purchaseContent regS2 3 9 42 true true true = some regS3 ∧
    ((regS3.contents 42).currentOwner = 9 ∧
     (regS3.contents 42).isAvailable = false ∧
     (regS3.contents 42).soldAt = 3 ∧
     (regS3.userContents 9).count 42 = (regS2.userContents 9).count 42 + 1) :=
  ⟨rfl, claim7_ownership_transfer_exactness regS2 3 9 42 true true true regS3 rfl⟩

/-- C8: in every registry state reachable by any sequence of operations, an
available content record is approved. -/
theorem claim8_available_implies_approved {s : RegistryState}
    (h : RegReachable s) (i : Nat)
    (hav : (s.contents i).isAvailable = true) :
    (s.contents i).isApproved = true :=
  regReachable_inv h i hav

/-- Witness for C8: the concretely reached state with approved content 42. -/
theorem claim8_witness :
    RegReachable regS2 ∧ (regS2.contents 42).isAvailable = true ∧
    (regS2.contents 42).isApproved = true := by
  have h1 : RegReachable regS1 :=
    RegReachable.register regS0 1 42 7 "Qm1" "text" regS1 (RegReachable.init 5) rfl
  have h2 : RegReachable regS2 :=
    RegReachable.approve regS1 2 42 1000 regS2 h1 rfl
  exact ⟨h2, rfl, claim8_available_implies_approved h2 42 rfl⟩

/-- C10: `deactivateReferral` is total over users (no existence or activity
check), idempotent, and clears exactly the `isActive` flag: all other fields
of the user's record, every other user's record, and all remaining contract
state are unchanged. -/
theorem claim10_deactivate_frame (s : DistState) (user : Nat) :
    ((deactivateReferral s user).userReferrals user).isActive = false ∧
    ((deactivateReferral s user).userReferrals user).directReferrer
      = (s.userReferrals user).directReferrer ∧
    ((deactivateReferral s user).userReferrals user).grandReferrer
      = (s.userReferrals user).grandReferrer ∧
    ((deactivateReferral s user).userReferrals user).tier
      = (s.userReferrals user).tier ∧
    ((deactivateReferral s user).userReferrals user).totalEarnings
      = (s.userReferrals user).totalEarnings ∧
    ((deactivateReferral s user).userReferrals user).totalReferrals
      = (s.userReferrals user).totalReferrals ∧
    (∀ a, a ≠ user →
      (deactivateReferral s user).userReferrals a = s.userReferrals a) ∧
    deactivateReferral (deactivateReferral s user) user = deactivateReferral s user ∧
    (deactivateReferral s user).totalReferralEarnings = s.totalReferralEarnings ∧
    (deactivateReferral s user).payouts = s.payouts ∧
    (deactivateReferral s user).totalPayouts = s.totalPayouts ∧
    (deactivateReferral s user).directReferrerRates = s.directReferrerRates ∧
    (deactivateReferral s user).grandReferrerRates = s.grandReferrerRates ∧
    (deactivateReferral s user).evaluatorTreasury = s.evaluatorTreasury ∧
    (deactivateReferral s user).platformTreasury = s.platformTreasury ∧
    (deactivateReferral s user).paused = s.paused ∧
    (deactivateReferral s user).transferLog = s.transferLog := by
  refine ⟨by simp [deactivateReferral], by simp [deactivateReferral],
    by simp [deactivateReferral], by simp [deactivateReferral],
    by simp [deactivateReferral], by simp [deactivateReferral],
    fun a ha => by simp [deactivateReferral, ha], ?_,
    rfl, rfl, rfl, rfl, rfl, rfl, rfl, rfl, rfl⟩
  simp only [deactivateReferral]
  congr 1
  funext a
  by_cases ha : a = user
  · simp [ha]
  · simp [ha]

/-- C5: every completed `processContentPurchase` call increments
`totalPayouts` by exactly one and writes exactly one new payout record at
the old counter (echoing the purchase), whatever the transfer outcome; and
across all engine operations the counter never decreases and written
records are never overwritten. -/
theorem claim5_payout_ledger_append_only
    (s : DistState) (oracle : Nat → Nat → Bool)
    (now cid buyer miner A : Nat) (ok : Bool) (s' : DistState)
    (h : processContentPurchase s oracle now cid buyer miner A = some (ok, s')) :
    s'.totalPayouts = s.totalPayouts + 1 ∧
    (s'.payouts s.totalPayouts).contentId = cid ∧
    (s'.payouts s.totalPayouts).buyer = buyer ∧
    (s'.payouts s.totalPayouts).totalAmount = A ∧
    (∀ i, i ≠ s.totalPayouts → s'.payouts i = s.payouts i) ∧
    (∀ u v : DistState, DistStep u v → u.totalPayouts ≤ v.totalPayouts ∧
      ∀ i, i < u.totalPayouts → v.payouts i = u.payouts i) := by
  obtain ⟨-, -, -, -, d, g, t, -, -, hdp⟩ := processInv h
  obtain ⟨h1, -, h3, h4, -, -, -, -⟩ :=
    distributePayout_inv _ _ _ _ _ _ _ _ _ _ _ _ hdp
  refine ⟨h1, ?_, ?_, ?_, h4, fun u v hs => distStep_mono hs⟩ <;>
    rw [h3] <;> simp [basePayoutRecord]

/-- Witness for C5: the sample purchase appends record 0 and bumps the
counter from 0 to 1. -/
theorem claim5_witness :
    processContentPurchase sampleDist orAll 7 42 10 20 1000
      = some (sampleRun.1, sampleRun.2) ∧
    sampleRun.2.totalPayouts = sampleDist.totalPayouts + 1 :=
  ⟨rfl, (claim5_payout_ledger_append_only sampleDist orAll 7 42 10 20 1000
    sampleRun.1 sampleRun.2 rfl).1⟩

/-- C2: under every rate table reachable from the constructor through
`updateReferralRates`, the referral legs computed for any buyer and amount
never exceed the platform leg, so the checked subtraction computing
`residualPlatformAmount` cannot underflow (its abort condition is false). -/
theorem claim2_residual_never_underflows
    (s : DistState) (buyer A d g t : Nat)
    (hr : RatesReachable s.directReferrerRates s.grandReferrerRates)
    (h : calculateReferralPayouts s buyer A = some (d, g, t)) :
    d + g ≤ A * PLATFORM_RATE / 10000 ∧
    ¬ (A * PLATFORM_RATE / 10000 < t) := by
  have hle := referralTotal_le_platform hr h
  have ht := (calcInv h).1
  omega

/-- Witness for C2: the constructor rates with the sample SILVER buyer. -/
theorem claim2_witness :
    RatesReachable sampleDist.directReferrerRates sampleDist.grandReferrerRates ∧
    calculateReferralPayouts sampleDist 10 1000 = some (50, 25, 75) ∧
    (50 + 25 ≤ 1000 * PLATFORM_RATE / 10000 ∧
     ¬ (1000 * PLATFORM_RATE / 10000 < 75)) :=
  ⟨RatesReachable.init, rfl,
    claim2_residual_never_underflows sampleDist 10 1000 50 25 75
      RatesReachable.init rfl⟩

/-- C1: for a purchase of amount `A` by a buyer holding an active SILVER
record whose grand referrer is non-null and active (at the constructor's
SILVER rates), the five legs recorded by `processContentPurchase` are the
stated integer-division formulas, their sum is at most `A`, and the
truncation shortfall is below 5. -/
theorem claim1_value_conservation_happy_path
    (s : DistState) (oracle : Nat → Nat → Bool) (now cid buyer miner A : Nat)
    (ok : Bool) (s' : DistState)
    (hact : (s.userReferrals buyer).isActive = true)
    (htier : (s.userReferrals buyer).tier = Tier.SILVER)
    (hgr : (s.userReferrals buyer).grandReferrer ≠ 0)
    (hgact : (s.userReferrals (s.userReferrals buyer).grandReferrer).isActive = true)
    (hdr : s.directReferrerRates Tier.SILVER = 500)
    (hgrr : s.grandReferrerRates Tier.SILVER = 250)
    (h : processContentPurchase s oracle now cid buyer miner A = some (ok, s')) :
    (s'.payouts s.totalPayouts).minerAmount = A * 5000 / 10000 ∧
    (s'.payouts s.totalPayouts).evaluatorAmount = A * 2000 / 10000 ∧
    (s'.payouts s.totalPayouts).directReferrerAmount = A * 500 / 10000 ∧
    (s'.payouts s.totalPayouts).grandReferrerAmount = A * 250 / 10000 ∧
    (s'.payouts s.totalPayouts).residualPlatformAmount
      = A * 3000 / 10000 - (A * 500 / 10000 + A * 250 / 10000) ∧
    (s'.payouts s.totalPayouts).minerAmount
      + (s'.payouts s.totalPayouts).evaluatorAmount
      + (s'.payouts s.totalPayouts).residualPlatformAmount
      + (s'.payouts s.totalPayouts).directReferrerAmount
      + (s'.payouts s.totalPayouts).grandReferrerAmount ≤ A ∧
    A - ((s'.payouts s.totalPayouts).minerAmount
      + (s'.payouts s.totalPayouts).evaluatorAmount
      + (s'.payouts s.totalPayouts).residualPlatformAmount
      + (s'.payouts s.totalPayouts).directReferrerAmount
      + (s'.payouts s.totalPayouts).grandReferrerAmount) < 5 := by
  obtain ⟨-, -, -, -, d, g, t, hcalc, hut, hdp⟩ := processInv h
  obtain ⟨-, -, h3, -, -, -, -, -⟩ :=
    distributePayout_inv _ _ _ _ _ _ _ _ _ _ _ _ hdp
  obtain ⟨htsum, hcase⟩ := calcInv hcalc
  rcases hcase with ⟨hia, -, -⟩ | ⟨-, hd, hg⟩
  · rw [hact] at hia
    exact Bool.noConfusion hia
  · rw [htier, hdr] at hd
    rw [htier, hgrr, if_pos ⟨hgr, hgact⟩] at hg
    have hb := base_split_bounds A
    rw [h3]
    simp only [basePayoutRecord, MINER_RATE, EVALUATOR_RATE, PLATFORM_RATE] at hb hut ⊢
    refine ⟨?_, ?_, ?_, ?_, ?_, ?_, ?_⟩ <;> first | trivial | omega

/-- Witness for C1: the sample SILVER purchase of amount 1000 records legs
500 / 200 / 50 / 25 / 225 summing to 1000. -/
theorem claim1_witness :
    processContentPurchase sampleDist orAll 7 42 10 20 1000
      = some (sampleRun.1, sampleRun.2) ∧
    ((sampleRun.2.payouts 0).minerAmount = 1000 * 5000 / 10000 ∧
     (sampleRun.2.payouts 0).evaluatorAmount = 1000 * 2000 / 10000 ∧
     (sampleRun.2.payouts 0).directReferrerAmount = 1000 * 500 / 10000 ∧
     (sampleRun.2.payouts 0).grandReferrerAmount = 1000 * 250 / 10000 ∧
     (sampleRun.2.payouts 0).residualPlatformAmount
       = 1000 * 3000 / 10000 - (1000 * 500 / 10000 + 1000 * 250 / 10000) ∧
     (sampleRun.2.payouts 0).minerAmount
       + (sampleRun.2.payouts 0).evaluatorAmount
       + (sampleRun.2.payouts 0).residualPlatformAmount
       + (sampleRun.2.payouts 0).directReferrerAmount
       + (sampleRun.2.payouts 0).grandReferrerAmount ≤ 1000 ∧
     1000 - ((sampleRun.2.payouts 0).minerAmount
       + (sampleRun.2.payouts 0).evaluatorAmount
       + (sampleRun.2.payouts 0).residualPlatformAmount
       + (sampleRun.2.payouts 0).directReferrerAmount
       + (sampleRun.2.payouts 0).grandReferrerAmount) < 5) :=
  ⟨rfl, claim1_value_conservation_happy_path sampleDist orAll 7 42 10 20 1000
    sampleRun.1 sampleRun.2 rfl rfl (by decide) rfl rfl rfl rfl⟩

/-- C3: when `processContentPurchase` returns failure, the five legs (in
their fixed order) split into an executed prefix, a first failing leg, and
an unattempted remainder; the executed prefix stays journalled (nothing is
undone), the appended record stays with `completed = false`, no referral
accumulator moves, and no later operation ever rewrites a written record. -/
theorem claim3_transfer_failure_isolation
    (s : DistState) (oracle : Nat → Nat → Bool) (now cid buyer miner A : Nat)
    (ok : Bool) (s' : DistState)
    (h : processContentPurchase s oracle now cid buyer miner A = some (ok, s')) :
    (∃ d g t, calculateReferralPayouts s buyer A = some (d, g, t) ∧
      ((∃ u ∈ payoutLegs s buyer miner A d g t, oracle u.1 u.2 = false) →
        ok = false) ∧
      (ok = false → ∃ pre leg post,
        payoutLegs s buyer miner A d g t = pre ++ leg :: post ∧
        (∀ u ∈ pre, oracle u.1 u.2 = true) ∧
        oracle leg.1 leg.2 = false ∧
        s'.transferLog = s.transferLog ++ pre)) ∧
    (ok = false →
      s'.totalPayouts = s.totalPayouts + 1 ∧
      (s'.payouts s.totalPayouts).completed = false ∧
      s'.userReferrals = s.userReferrals ∧
      s'.totalReferralEarnings = s.totalReferralEarnings) ∧
    (∀ u v : DistState, DistStep u v →
      ∀ i, i < u.totalPayouts → v.payouts i = u.payouts i) := by
  obtain ⟨-, -, -, -, d, g, t, hcalc, -, hdp⟩ := processInv h
  obtain ⟨h1, h2, h3, -, h5, h6, -, -⟩ :=
    distributePayout_inv _ _ _ _ _ _ _ _ _ _ _ _ hdp
  refine ⟨⟨d, g, t, hcalc, ?_, ?_⟩, ?_,
    fun u v hs i hi => (distStep_mono hs).2 i hi⟩
  · rintro ⟨u, hu, hfail⟩
    cases ok with
    | false => rfl
    | true =>
      have := runTransfers_true_all oracle _ h2.symm u hu
      rw [this] at hfail
      exact Bool.noConfusion hfail
  · intro hok
    subst hok
    obtain ⟨pre, leg, post, hL, hpre, hleg, hex⟩ :=
      runTransfers_false_exec oracle _ h2.symm
    exact ⟨pre, leg, post, hL, hpre, hleg, by rw [h5, hex]⟩
  · intro hok
    subst hok
    exact ⟨h1, by simp [h3], (h6 rfl).1, (h6 rfl).2⟩

/-- Witness for C3: the sample purchase whose evaluator-treasury leg fails
pays only the miner and leaves the record incomplete. -/
theorem claim3_witness :
    processContentPurchase sampleDist orFailEval 7 42 10 20 1000
      = some (false, sampleRunFail.2) ∧
    (sampleRunFail.2.payouts 0).completed = false ∧
    sampleRunFail.2.totalReferralEarnings = sampleDist.totalReferralEarnings ∧
    sampleRunFail.2.transferLog = [(20, 500)] := by
  refine ⟨rfl, ?_, ?_, rfl⟩
  · exact ((claim3_transfer_failure_isolation sampleDist orFailEval 7 42 10 20 1000
      false sampleRunFail.2 rfl).2.1 rfl).2.1
  · exact ((claim3_transfer_failure_isolation sampleDist orFailEval 7 42 10 20 1000
      false sampleRunFail.2 rfl).2.1 rfl).2.2.2

/-- C4: the referral payout calculator: an inactive (or absent) buyer record
yields zero legs — and then the whole platform leg becomes the residual —
while an active record yields `direct = A * directRate[tier] / 10000` and a
grand leg paid only for a non-null, active grand referrer. -/
theorem claim4_referral_payout_calculator (s : DistState) (buyer A : Nat) :
    ((s.userReferrals buyer).isActive = false →
      calculateReferralPayouts s buyer A = some (0, 0, 0) ∧
      (∀ oracle now cid miner ok s',
        processContentPurchase s oracle now cid buyer miner A = some (ok, s') →
        (s'.payouts s.totalPayouts).residualPlatformAmount
          = (s'.payouts s.totalPayouts).platformAmount)) ∧
    ((s.userReferrals buyer).isActive = true →
      ∀ d g t, calculateReferralPayouts s buyer A = some (d, g, t) →
        d = A * s.directReferrerRates (s.userReferrals buyer).tier / 10000 ∧
        g = (if (s.userReferrals buyer).grandReferrer ≠ 0 ∧
                (s.userReferrals (s.userReferrals buyer).grandReferrer).isActive = true
             then A * s.grandReferrerRates (s.userReferrals buyer).tier / 10000
             else 0) ∧
        t = d + g) := by
  constructor
  · intro hia
    refine ⟨calc_inactive hia, ?_⟩
    intro oracle now cid miner ok s' h
    obtain ⟨-, -, -, -, d, g, t, hcalc, -, hdp⟩ := processInv h
    obtain ⟨-, -, h3, -, -, -, -, -⟩ :=
      distributePayout_inv _ _ _ _ _ _ _ _ _ _ _ _ hdp
    rw [calc_inactive hia] at hcalc
    simp only [Option.some.injEq, Prod.mk.injEq] at hcalc
    obtain ⟨hd, hg, ht⟩ := hcalc
    rw [h3]
    simp [basePayoutRecord, ← ht]
  · intro hact d g t hcalc
    obtain ⟨htsum, hcase⟩ := calcInv hcalc
    rcases hcase with ⟨hia, -, -⟩ | ⟨-, hd, hg⟩
    · rw [hact] at hia
      exact Bool.noConfusion hia
    · exact ⟨hd, hg, htsum⟩

/-- Witness for C4: buyer 99 (no record) yields zeros and a full-platform
residual; buyer 10 (active SILVER) yields the tier formulas. -/
theorem claim4_witness :
    (sampleDist.userReferrals 99).isActive = false ∧
    calculateReferralPayouts sampleDist 99 1000 = some (0, 0, 0) ∧
    (sampleRunNoRef.2.payouts 0).residualPlatformAmount
      = (sampleRunNoRef.2.payouts 0).platformAmount ∧
    (sampleDist.userReferrals 10).isActive = true ∧
    calculateReferralPayouts sampleDist 10 1000 = some (50, 25, 75) ∧
    (50 : Nat) = 1000 * sampleDist.directReferrerRates
      (sampleDist.userReferrals 10).tier / 10000 := by
  refine ⟨rfl, ?_, ?_, rfl, rfl, ?_⟩
  · exact ((claim4_referral_payout_calculator sampleDist 99 1000).1 rfl).1
  · exact ((claim4_referral_payout_calculator sampleDist 99 1000).1 rfl).2
      orAll 7 43 20 sampleRunNoRef.1 sampleRunNoRef.2 rfl
  · exact (((claim4_referral_payout_calculator sampleDist 10 1000).2 rfl)
      50 25 75 rfl).1

/-- C9: for an active buyer record with a positive direct rate, the direct
leg uses only the buyer's own record — the direct referrer's own record is
irrelevant (the state is arbitrary at that address) — and when positive it
is transferred to the recorded direct referrer and credited to that
referrer's accumulators; only the grand leg is gated on the grand
referrer's record being active. -/
theorem claim9_direct_leg_unconditional
    (s : DistState) (oracle : Nat → Nat → Bool) (now cid buyer miner A : Nat)
    (s' : DistState)
    (hact : (s.userReferrals buyer).isActive = true)
    (_hrate : 0 < s.directReferrerRates (s.userReferrals buyer).tier)
    (hne : (s.userReferrals buyer).directReferrer
      ≠ (s.userReferrals buyer).grandReferrer)
    (h : processContentPurchase s oracle now cid buyer miner A = some (true, s')) :
    (s'.payouts s.totalPayouts).directReferrerAmount
      = A * s.directReferrerRates (s.userReferrals buyer).tier / 10000 ∧
    (s'.payouts s.totalPayouts).grandReferrerAmount
      = (if (s.userReferrals buyer).grandReferrer ≠ 0 ∧
            (s.userReferrals (s.userReferrals buyer).grandReferrer).isActive = true
         then A * s.grandReferrerRates (s.userReferrals buyer).tier / 10000
         else 0) ∧
    (0 < A * s.directReferrerRates (s.userReferrals buyer).tier / 10000 →
      ((s.userReferrals buyer).directReferrer,
        A * s.directReferrerRates (s.userReferrals buyer).tier / 10000)
          ∈ s'.transferLog ∧
      s'.totalReferralEarnings ((s.userReferrals buyer).directReferrer)
        = s.totalReferralEarnings ((s.userReferrals buyer).directReferrer)
          + A * s.directReferrerRates (s.userReferrals buyer).tier / 10000 ∧
      (s'.userReferrals ((s.userReferrals buyer).directReferrer)).totalEarnings
        = (s.userReferrals ((s.userReferrals buyer).directReferrer)).totalEarnings
          + A * s.directReferrerRates (s.userReferrals buyer).tier / 10000 ∧
      (s'.userReferrals ((s.userReferrals buyer).directReferrer)).totalReferrals
        = (s.userReferrals ((s.userReferrals buyer).directReferrer)).totalReferrals
          + 1) := by
  obtain ⟨-, -, -, -, d, g, t, hcalc, -, hdp⟩ := processInv h
  obtain ⟨-, h2, h3, -, h5, -, h7, -⟩ :=
    distributePayout_inv _ _ _ _ _ _ _ _ _ _ _ _ hdp
  obtain ⟨htsum, hcase⟩ := calcInv hcalc
  rcases hcase with ⟨hia, -, -⟩ | ⟨-, hd, hg⟩
  · rw [hact] at hia
    exact Bool.noConfusion hia
  subst hd
  subst hg
  refine ⟨by rw [h3]; simp [basePayoutRecord], by rw [h3]; simp [basePayoutRecord], ?_⟩
  intro hpos
  have hpt : 0 < t := by omega
  obtain ⟨hur, htre⟩ := h7 rfl hpt
  have hrun : (runTransfers oracle (payoutLegs s buyer miner A
      (A * s.directReferrerRates (s.userReferrals buyer).tier / 10000)
      (if (s.userReferrals buyer).grandReferrer ≠ 0 ∧
          (s.userReferrals (s.userReferrals buyer).grandReferrer).isActive = true
       then A * s.grandReferrerRates (s.userReferrals buyer).tier / 10000
       else 0) t)).1 = true := h2.symm
  obtain ⟨e1, e2, e3⟩ := updateReferralStats_direct_effects s buyer
    (A * s.directReferrerRates (s.userReferrals buyer).tier / 10000)
    (if (s.userReferrals buyer).grandReferrer ≠ 0 ∧
        (s.userReferrals (s.userReferrals buyer).grandReferrer).isActive = true
     then A * s.grandReferrerRates (s.userReferrals buyer).tier / 10000
     else 0) hpos hne
  refine ⟨?_, by rw [htre]; exact e1, by rw [hur]; exact e2, by rw [hur]; exact e3⟩
  rw [h5]
  refine List.mem_append_right _ ?_
  refine runTransfers_true_mem _ _ hrun _ ?_
  simp [payoutLegs, hpos]

/-- Witness for C9: in the sample run the direct referrer (address 11, who
has no referral record of their own) receives and is credited 50. -/
theorem claim9_witness :
    processContentPurchase sampleDist orAll 7 42 10 20 1000
      = some (true, sampleRun.2) ∧
    (sampleRun.2.payouts 0).directReferrerAmount
      = 1000 * sampleDist.directReferrerRates (sampleDist.userReferrals 10).tier / 10000 ∧
    ((sampleDist.userReferrals 10).directReferrer,
      1000 * sampleDist.directReferrerRates (sampleDist.userReferrals 10).tier / 10000)
        ∈ sampleRun.2.transferLog ∧
    sampleRun.2.totalReferralEarnings ((sampleDist.userReferrals 10).directReferrer)
      = sampleDist.totalReferralEarnings ((sampleDist.userReferrals 10).directReferrer)
        + 1000 * sampleDist.directReferrerRates (sampleDist.userReferrals 10).tier / 10000 ∧
    (sampleRun.2.userReferrals ((sampleDist.userReferrals 10).directReferrer)).totalReferrals
      = (sampleDist.userReferrals ((sampleDist.userReferrals 10).directReferrer)).totalReferrals
        + 1 := by
  have h := claim9_direct_leg_unconditional sampleDist orAll 7 42 10 20 1000
    sampleRun.2 rfl (by decide) (by decide) rfl
  exact ⟨rfl, h.1, (h.2.2 (by decide)).1, (h.2.2 (by decide)).2.1,
    (h.2.2 (by decide)).2.2.2⟩

end Roast
